import Mathlib

/-!
Verification of the data aggregation and indexing engine of the nuclear-plant
population-exposure dashboard (source files `src/main.js` and
`src/unnamed/part_000`; the latter is a superset of the former that adds the
decade-change delta engine).

Conventions of the shallow embedding:
* Numeric CSV cells that `d3.autoType` may leave as `null` (JS `null`) or a
  non-finite float are modelled by `JSNum` (`null`, `nan`, or an exact integer);
  percentages and plant counts, whose claims never exercise non-finite values,
  are modelled as `Option Int` (`none` = JS `null`).
* The template-string composite keys `${iso3}_${year}_${buffer}` and
  `${year}_${buffer}` are modelled by the corresponding tuples; the string
  encoding is injective for integer year/buffer renderings, so tuple keys have
  the same lookup semantics.
* JS `Map` is modelled by an insertion-ordered association list: `Map.set`
  replaces in place when the key is present, otherwise appends; `Map.get`
  returns the first (hence only) binding.
* `Array.prototype.sort` with a `d3.ascending`/`d3.descending` comparator is a
  stable sort (guaranteed by ES2019); it is modelled by `List.insertionSort r`
  where `r a b` means "a may be placed before b", i.e. comparator(a, b) ≤ 0.
  A stable sort for a total preorder is unique, so this is faithful.
-/

namespace NukeExposure

/-- A JS numeric cell as produced by `d3.autoType`: `null` for an empty cell,
`NaN` for an unparsable numeric, or a finite number (modelled exactly as an
integer). -/
inductive JSNum where
  | null : JSNum
  | nan : JSNum
  | num : Int → JSNum
deriving DecidableEq, Repr

/-- JS `ToNumber` coercion as applied by the subtraction operator:
`null` coerces to `0`, `NaN` stays non-finite. -/
def JSNum.toNumber : JSNum → Option Int
  | .null => some 0
  | .nan => none
  | .num v => some v

/-- JS subtraction `a - b` on cell values: any non-finite operand yields `NaN`. -/
def jsSub (a b : JSNum) : JSNum :=
  match a.toNumber, b.toNumber with
  | some x, some y => .num (x - y)
  | _, _ => .nan

/-- One row of `country_exposure_long.csv` after `d3.autoType`
(a `CountryExposureRecord`). -/
structure Row where
  iso3 : String
  country : String
  year : Int
  buffer_km : Int
  pct_near : Option Int
  pop_near : JSNum
  num_plants : Option Int
deriving DecidableEq, Repr

/-- `const years = [1990, 2000, 2010]` — the fixed year sequence. -/
def years : List Int := [1990, 2000, 2010]

/-- `const buffers = [30, 75, 300]` — the fixed buffer set. -/
def buffers : List Int := [30, 75, 300]

/-- The primary-key triple of a row: `(iso3, year, buffer_km)`, the tuple
rendering of the source key `${iso3}_${year}_${buffer}`. -/
def rowKey (r : Row) : String × Int × Int := (r.iso3, r.year, r.buffer_km)

/-! ### JS `Map` model -/

/-- A JS `Map`, modelled as its insertion-ordered list of bindings. -/
abbrev JSMap (κ β : Type) := List (κ × β)

/-- `Map.set`: replace the binding in place when the key is already present,
otherwise append a fresh binding. -/
def jsSet [DecidableEq κ] (m : JSMap κ β) (k : κ) (v : β) : JSMap κ β :=
  if m.any (fun p => decide (p.1 = k)) then
    m.map (fun p => if p.1 = k then (k, v) else p)
  else m ++ [(k, v)]

/-- `Map.get`, returning `none` for JS `undefined`. -/
def jsLookup [DecidableEq κ] (m : JSMap κ β) (k : κ) : Option β :=
  (m.find? (fun p => decide (p.1 = k))).map Prod.snd

/-- Build a JS `Map` by `set`ting a list of bindings in order. -/
def jsMapOfList [DecidableEq κ] (l : List (κ × β)) : JSMap κ β :=
  l.foldl (fun m p => jsSet m p.1 p.2) []

/-! ### RecordStore: load-time buffer filter -/

/-- `countryRows.filter(d => buffers.includes(d.buffer_km))`. -/
def filterRows (rows : List Row) : List Row :=
  rows.filter (fun d => buffers.contains d.buffer_km)

/-! ### IndexBuilder: point index and rank index -/

/-- `exposureByKey`: the point index from the key triple to the row. -/
def exposureByKey (rows : List Row) : JSMap (String × Int × Int) Row :=
  jsMapOfList (rows.map (fun d => (rowKey d, d)))

/-- The percentage value used by the ranking comparator (rows entering the
sort all have `pct_near != null`). -/
def pctv (r : Row) : Int := r.pct_near.getD 0

/-- "May precede" order of the stable sort
`subset.sort((a, b) => d3.descending(a.pct_near, b.pct_near))`:
`a` may sit before `b` iff the comparator is ≤ 0, i.e. `pct b ≤ pct a`. -/
def descR (a b : Row) : Prop := pctv b ≤ pctv a

instance : DecidableRel descR := fun a b => inferInstanceAs (Decidable (_ ≤ _))

instance : IsTotal Row descR := ⟨fun a b => Int.le_total (pctv b) (pctv a)⟩

instance : IsTrans Row descR := ⟨fun _ _ _ h h2 => le_trans h2 h⟩

/-- The rows ranked at one `(year, buffer)` pair:
`countryRows.filter(d => d.year === year && d.buffer_km === buffer && d.pct_near != null)`. -/
def subsetAt (rows : List Row) (y b : Int) : List Row :=
  rows.filter (fun d => decide (d.year = y) && decide (d.buffer_km = b) && d.pct_near.isSome)

/-- The subset sorted descending by share (stable). -/
def sortedAt (rows : List Row) (y b : Int) : List Row :=
  (subsetAt rows y b).insertionSort descR

/-- The `(iso3, i + 1)` bindings in sorted order:
`subset.forEach((d, i) => map.set(d.iso3, i + 1))`. -/
def rankPairs (rows : List Row) (y b : Int) : List (String × Nat) :=
  (sortedAt rows y b).enum.map (fun p => (p.2.iso3, p.1 + 1))

/-- The rank map for one `(year, buffer)` pair. -/
def rankMapAt (rows : List Row) (y b : Int) : JSMap String Nat :=
  jsMapOfList (rankPairs rows y b)

/-- `rankByYearBuffer`: tuple-keyed map over the fixed year×buffer cross
product, built in the source's nested `forEach` order. -/
def rankByYearBuffer (rows : List Row) : JSMap (Int × Int) (JSMap String Nat) :=
  jsMapOfList (years.flatMap (fun y => buffers.map (fun b => ((y, b), rankMapAt rows y b))))

/-! ### DeltaEngine -/

/-- First-occurrence deduplication (the key iteration order of `d3.group`). -/
def uniqAux [DecidableEq α] (seen : List α) : List α → List α
  | [] => []
  | x :: xs => if x ∈ seen then uniqAux seen xs else x :: uniqAux (x :: seen) xs

/-- Keys of a `d3.group` level, in first-occurrence order. -/
def uniq [DecidableEq α] (l : List α) : List α := uniqAux [] l

/-- Outer `d3.group` keys: the distinct `iso3` codes in first-occurrence order. -/
def isoKeys (rows : List Row) : List String := uniq (rows.map Row.iso3)

/-- Inner `d3.group` keys for one entity: its distinct buffers in
first-occurrence order. -/
def bufKeysFor (rows : List Row) (i : String) : List Int :=
  uniq ((rows.filter (fun r => decide (r.iso3 = i))).map Row.buffer_km)

/-- The `(iso3, buffer)` groups in the iteration order of the nested
`grouped.forEach` walk. -/
def groupPairs (rows : List Row) : List (String × Int) :=
  (isoKeys rows).flatMap (fun i => (bufKeysFor rows i).map (fun b => (i, b)))

/-- The rows of one `(iso3, buffer)` group, in input order. -/
def groupRows (rows : List Row) (i : String) (b : Int) : List Row :=
  rows.filter (fun r => decide (r.iso3 = i) && decide (r.buffer_km = b))

/-- "May precede" order of `rows.slice().sort((a, b) => d3.ascending(a.year, b.year))`. -/
def ascYearR (a b : Row) : Prop := a.year ≤ b.year

instance : DecidableRel ascYearR := fun a b => inferInstanceAs (Decidable (_ ≤ _))

instance : IsTotal Row ascYearR := ⟨fun a b => Int.le_total a.year b.year⟩

instance : IsTrans Row ascYearR := ⟨fun _ _ _ h h2 => le_trans h h2⟩

/-- One group sorted ascending by year (stable). -/
def sortedGroup (rows : List Row) (i : String) (b : Int) : List Row :=
  (groupRows rows i b).insertionSort ascYearR

/-- The delta computed for one non-first record against the previous record:
`let delta = r.pop_near - prev.pop_near; if (!isFinite(delta)) delta = null;
if (delta != null && delta < 0) delta = 0;`. -/
def deltaOf (cur prev : JSNum) : Option Int :=
  match jsSub cur prev with
  | .num v => if v < 0 then some 0 else some v
  | _ => none

/-- The walk over one sorted group maintaining the previous record: the first
record gets a `null` delta, each later record gets `deltaOf` against its
immediate predecessor. Produces the `deltaExposureByKey` entries in order. -/
def walk (i : String) (b : Int) : Option Row → List Row → List ((String × Int × Int) × Option Int)
  | _, [] => []
  | none, r :: rest => ((i, r.year, b), none) :: walk i b (some r) rest
  | some p, r :: rest => ((i, r.year, b), deltaOf r.pop_near p.pop_near) :: walk i b (some r) rest

/-- All delta entries, in the order the nested `grouped.forEach` walk emits
them. -/
def deltaEntries (rows : List Row) : List ((String × Int × Int) × Option Int) :=
  (groupPairs rows).flatMap (fun p => walk p.1 p.2 none (sortedGroup rows p.1 p.2))

/-- `deltaExposureByKey`: key triple → Δpop_near vs the previous record
(clipped at 0), `some none` for a stored JS `null`. -/
def deltaExposureByKey (rows : List Row) : JSMap (String × Int × Int) (Option Int) :=
  jsMapOfList (deltaEntries rows)

/-- One update step of `maxDeltaByBuffer` performed for each stored delta:
`if (delta != null) { const old = maxDeltaByBuffer.get(buffer) || 0;
if (delta > old) maxDeltaByBuffer.set(buffer, delta); }`. -/
def maxStep (m : JSMap Int Int) (e : (String × Int × Int) × Option Int) : JSMap Int Int :=
  match e.2 with
  | none => m
  | some v => if (jsLookup m e.1.2.2).getD 0 < v then jsSet m e.1.2.2 v else m

/-- `maxDeltaByBuffer`: buffer → max positive Δpop_near, accumulated over the
walk. -/
def maxDeltaByBuffer (rows : List Row) : JSMap Int Int :=
  (deltaEntries rows).foldl maxStep []

/-- `maxDeltaByBuffer.get(state.buffer) || 1` (renderMapFills): the
normalization bound, defaulting to 1 on a missing or falsy entry. -/
def maxPositiveDelta (rows : List Row) (b : Int) : Int :=
  match jsLookup (maxDeltaByBuffer rows) b with
  | some v => if v = 0 then 1 else v
  | none => 1

/-! ### QueryFacade pieces used by renderDetail (pctRank guard) -/

/-- `rankMap ? rankMap.get(iso3) : null`. -/
def rankAtQuery (rows : List Row) (y b : Int) (i : String) : Option Nat :=
  match jsLookup (rankByYearBuffer rows) (y, b) with
  | none => none
  | some m => jsLookup m i

/-- `rankMap ? rankMap.size : null`. -/
def denomQuery (rows : List Row) (y b : Int) : Option Nat :=
  (jsLookup (rankByYearBuffer rows) (y, b)).map List.length

/-- `rank && denom ? ((rank / denom) * 100).toFixed(0) : null` — the percentile
is computed only when both `rank` and `denom` are truthy (present and
non-zero); the float division plus `toFixed(0)` is modelled by integer
arithmetic, which the guard claims never exercise. -/
def pctRankQuery (rows : List Row) (y b : Int) (i : String) : Option Nat :=
  match rankAtQuery rows y b i, denomQuery rows y b with
  | some r, some d => if r = 0 ∨ d = 0 then none else some (r * 100 / d)
  | _, _ => none

/-! ### featureIso3 -/

/-- A geographic feature's identifier-bearing fields (`f.id` and the ISO-code
spellings inside `f.properties`); `none` stands for a missing field. -/
structure Feature where
  fid : Option String
  iso_a3 : Option String
  ISO_A3 : Option String
  adm0_a3 : Option String
  ADM0_A3 : Option String
  iso3c : Option String
  ISO3 : Option String
deriving DecidableEq, Repr

/-- The prioritized candidate list
`[f.id, p.iso_a3, p.ISO_A3, p.adm0_a3, p.ADM0_A3, p.iso3, p.ISO3]`. -/
def candidates (f : Feature) : List (Option String) :=
  [f.fid, f.iso_a3, f.ISO_A3, f.adm0_a3, f.ADM0_A3, f.iso3c, f.ISO3]

/-- JS `String.prototype.trim()`: strip leading and trailing whitespace. -/
def jsTrim (s : String) : String :=
  ⟨((s.data.dropWhile Char.isWhitespace).reverse.dropWhile Char.isWhitespace).reverse⟩

/-- JS `String.prototype.toUpperCase()` (the inputs it is applied to are ASCII
letters, where per-character uppercasing is exact). -/
def jsToUpper (s : String) : String := ⟨s.data.map Char.toUpper⟩

/-- The regex test `/^[A-Za-z]{3}$/.test(s)`. -/
def isThreeLetters (s : String) : Bool :=
  s.data.length == 3 && s.data.all (fun c =>
    (decide ('A' ≤ c) && decide (c ≤ 'Z')) || (decide ('a' ≤ c) && decide (c ≤ 'z')))

/-- `const alias = { ANT: "NLD", KOS: "XKX" }; alias[up] || up`. -/
def aliasFix (s : String) : String :=
  if s = "ANT" then "NLD" else if s = "KOS" then "XKX" else s

/-- The candidate loop of `featureIso3`: skip falsy candidates (`null`,
`undefined`, the empty string), trim, test the three-letter regex, uppercase
and remap on success, keep scanning on failure. -/
def featureIso3Go : List (Option String) → Option String
  | [] => none
  | c :: rest =>
    match c with
    | none => featureIso3Go rest
    | some s =>
      if s = "" then featureIso3Go rest
      else
        if isThreeLetters (jsTrim s) then some (aliasFix (jsToUpper (jsTrim s)))
        else featureIso3Go rest

/-- `featureIso3(f)`: resolve a feature to its 3-letter entity code, or `none`
("no entity") when no candidate resolves. -/
def featureIso3 (f : Feature) : Option String :=
  featureIso3Go (candidates f)

/-- Modelled from the claim's wording, for comparison with the source loop:
resolve each candidate independently (a candidate resolves when it is a
3-letter code after trimming; the resolution is the alias-remapped uppercase
form) and return the first resolution in priority order. -/
def resolveCandidate (c : Option String) : Option String :=
  c.bind (fun s =>
    if isThreeLetters (jsTrim s) then some (aliasFix (jsToUpper (jsTrim s))) else none)

/-- The claim-side specification of `featureIso3`. -/
def featureIso3Spec (f : Feature) : Option String :=
  ((candidates f).filterMap resolveCandidate).head?

/-! ### PlaybackController

`startPlayback`/`stopPlayback`/the play-button click handler, with `setInterval`
modelled explicitly: each live interval carries the mutable `idx` captured by
its tick closure, `setInterval` registers a fresh interval and returns its
handle, `clearInterval(h)` deregisters the interval with handle `h`. -/

/-- One live interval: its handle and the current value of the captured `idx`. -/
structure Timer where
  tid : Nat
  idx : Nat
deriving DecidableEq, Repr

/-- The playback-relevant program state: `state.playing`, `state.year`, the
set of live intervals, the module variable `playTimer`, and the next fresh
interval handle. -/
structure PB where
  playing : Bool
  year : Int
  timers : List Timer
  playTimer : Option Nat
  nextId : Nat
deriving DecidableEq, Repr

/-- `let idx = years.indexOf(state.year); if (idx < 0) idx = 0;`. -/
def yearIdx (y : Int) : Nat :=
  (years.findIdx? (fun z => decide (z = y))).getD 0

/-- `startPlayback()`: set `playing`, register a new interval whose closure
starts from the index of the current year, store its handle in `playTimer`. -/
def startPlayback (s : PB) : PB :=
  { playing := true
    year := s.year
    timers := s.timers ++ [⟨s.nextId, yearIdx s.year⟩]
    playTimer := some s.nextId
    nextId := s.nextId + 1 }

/-- `stopPlayback()`: clear `playing`; `if (playTimer) { clearInterval(playTimer);
playTimer = null; }`. -/
def stopPlayback (s : PB) : PB :=
  { playing := false
    year := s.year
    timers :=
      match s.playTimer with
      | some h => s.timers.filter (fun t => decide (t.tid ≠ h))
      | none => s.timers
    playTimer := none
    nextId := s.nextId }

/-- The play-button click handler:
`if (state.playing) stopPlayback(); else startPlayback();`. -/
def clickPlay (s : PB) : PB :=
  if s.playing then stopPlayback s else startPlayback s

/-- A tick of the interval with handle `h` (a no-op if that interval is not
live): `idx = (idx + 1) % years.length; state.year = years[idx];`. -/
def tick (h : Nat) (s : PB) : PB :=
  match s.timers.find? (fun t => decide (t.tid = h)) with
  | none => s
  | some t =>
    { s with
      year := years.getD ((t.idx + 1) % years.length) 0
      timers := s.timers.map (fun u =>
        if u.tid = t.tid then ⟨u.tid, (t.idx + 1) % years.length⟩ else u) }

/-- The initial state: `state = { year: 2010, ..., playing: false }`,
`let playTimer = null`, no live interval. -/
def initPB : PB := ⟨false, 2010, [], none, 1⟩

/-- States reachable through the playback controller's events: play-button
clicks and interval ticks. -/
inductive Reachable : PB → Prop
  | init : Reachable initPB
  | click {s : PB} : Reachable s → Reachable (clickPlay s)
  | tick (h : Nat) {s : PB} : Reachable s → Reachable (tick h s)

/-- The claim-side successor function on the fixed year sequence: the next
element, wrapping to the first after the last. -/
def nextYearSpec (y : Int) : Int :=
  if y = 1990 then 2000 else if y = 2000 then 2010 else if y = 2010 then 1990 else y

/-! ### Concrete data for witnesses and counterexamples -/

/-- A row constructor for concrete test data. -/
def mkRow (i : String) (y b : Int) (pct : Option Int) (pop : JSNum) (np : Option Int) : Row :=
  ⟨i, i, y, b, pct, pop, np⟩

/-- A store whose (AAA, 30) series has records for 1990 and 2010 but not 2000:
the decade 2000→2010 has no previous-year record, yet an earlier (1990) record
exists. -/
def rowsGap : List Row :=
  [mkRow "AAA" 1990 30 (some 2) (.num 5) (some 1),
   mkRow "AAA" 2010 30 (some 6) (.num 9) (some 1)]

/-- A complete two-decade store for one entity and one buffer. -/
def rowsTwo : List Row :=
  [mkRow "AAA" 1990 30 (some 2) (.num 5) (some 1),
   mkRow "AAA" 2000 30 (some 4) (.num 9) (some 1)]

/-- A small store with two entities at (2010, 30), a tie in `pct_near`, and a
third entity with a null percentage there. -/
def rowsRank : List Row :=
  [mkRow "AAA" 2010 30 (some 4) (.num 7) (some 1),
   mkRow "BBB" 2010 30 (some 4) (.num 6) (some 1),
   mkRow "CCC" 2010 30 none (.num 5) (some 1)]

/-! ### Helper notions used to state the claims -/

/-- The unique row at a key triple (`find?` of the first match). -/
def recordAt (rows : List Row) (i : String) (y b : Int) : Option Row :=
  rows.find? (fun r => decide (r.iso3 = i) && decide (r.year = y) && decide (r.buffer_km = b))

/-- The population cell at a key triple, when the row exists. -/
def popAt (rows : List Row) (i : String) (y b : Int) : Option JSNum :=
  (recordAt rows i y b).map Row.pop_near

/-- A delta lookup is "no value" when the key is absent (JS `undefined`) or the
stored delta is JS `null`; both fail the source's `delta != null` tests. -/
def noValue (o : Option (Option Int)) : Prop := o = none ∨ o = some none

instance (o : Option (Option Int)) : Decidable (noValue o) :=
  inferInstanceAs (Decidable (_ ∨ _))

/-- Whether an optional population cell holds a finite number. -/
def isNumPop : Option JSNum → Bool
  | some (.num _) => true
  | _ => false

/-- The numeric value of a population cell (0 when not a number). -/
def popVal : Option JSNum → Int
  | some (.num v) => v
  | _ => 0

/-- The stored delta value behind a lookup, 0 when absent or null. -/
def valueOr0 (o : Option (Option Int)) : Int := (o.getD none).getD 0

/-- Claim C1 exactly as stated, as a predicate on a store: for every
(entity, buffer) pair, the earliest fixed year carries "no value"; for each
subsequent fixed year, the delta equals `max(0, pop_now − pop_prevDecade)` when
both populations are present, is "no value" when the previous decade's record
is absent for that buffer, and is never negative. -/
def C1Claim (rows : List Row) : Prop :=
  ∀ p ∈ groupPairs rows,
    noValue (jsLookup (deltaExposureByKey rows) (p.1, 1990, p.2)) ∧
    ∀ y ∈ ([2000, 2010] : List Int),
      (isNumPop (popAt rows p.1 y p.2) = true →
        isNumPop (popAt rows p.1 (y - 10) p.2) = true →
        jsLookup (deltaExposureByKey rows) (p.1, y, p.2) =
          some (some (max 0
            (popVal (popAt rows p.1 y p.2) - popVal (popAt rows p.1 (y - 10) p.2))))) ∧
      (recordAt rows p.1 (y - 10) p.2 = none →
        noValue (jsLookup (deltaExposureByKey rows) (p.1, y, p.2))) ∧
      0 ≤ valueOr0 (jsLookup (deltaExposureByKey rows) (p.1, y, p.2))

instance (rows : List Row) : Decidable (C1Claim rows) := by
  unfold C1Claim
  infer_instance

/-- Max of two optional values (`none` = no observation yet). -/
def omax : Option Int → Option Int → Option Int
  | none, y => y
  | some a, none => some a
  | some a, some c => some (max a c)

/-- The maximum of a list of values, `none` when empty. -/
def listMax : List Int → Option Int
  | [] => none
  | v :: l => omax (some v) (listMax l)

/-- The strictly positive delta carried by one walk entry at buffer `b`. -/
def posOf (b : Int) (e : (String × Int × Int) × Option Int) : Option Int :=
  match e.2 with
  | some v => if e.1.2.2 = b ∧ 0 < v then some v else none
  | none => none

/-- All strictly positive deltas observed at buffer `b`, in walk order. -/
def posDeltas (es : List ((String × Int × Int) × Option Int)) (b : Int) : List Int :=
  es.filterMap (posOf b)

/-- The inductive invariant of the playback controller: the year is always in
the fixed sequence; when stopped there is no live interval and no stored
handle; when running there is exactly one live interval, `playTimer` holds its
handle, and its closure index points at the current year. -/
def PBInv (s : PB) : Prop :=
  s.year ∈ years ∧
  (s.playing = false → s.timers = [] ∧ s.playTimer = none) ∧
  (s.playing = true → ∃ t : Timer, s.timers = [t] ∧ s.playTimer = some t.tid ∧
    t.idx < years.length ∧ years.getD t.idx 0 = s.year)

/-! ## Lemmas about the JS `Map` model -/

theorem jsSet_of_not_mem [DecidableEq κ] {m : JSMap κ β} {k : κ} (v : β)
    (h : k ∉ m.map Prod.fst) : jsSet m k v = m ++ [(k, v)] := by
  unfold jsSet
  rw [if_neg]
  simp only [List.any_eq_true, decide_eq_true_eq, not_exists, not_and]
  intro p hp hpk
  exact h (List.mem_map.mpr ⟨p, hp, hpk⟩)

theorem foldl_jsSet_of_nodup [DecidableEq κ] :
    ∀ (l : List (κ × β)) (m : JSMap κ β),
      (l.map Prod.fst).Nodup → (∀ k ∈ l.map Prod.fst, k ∉ m.map Prod.fst) →
      l.foldl (fun m p => jsSet m p.1 p.2) m = m ++ l
  | [], m, _, _ => by simp
  | p :: l, m, hn, hd => by
    have hp : p.1 ∉ m.map Prod.fst := hd p.1 (by simp)
    have hn' : (l.map Prod.fst).Nodup := (List.nodup_cons.mp (by simpa using hn)).2
    have hph : p.1 ∉ l.map Prod.fst := (List.nodup_cons.mp (by simpa using hn)).1
    have hd' : ∀ k ∈ l.map Prod.fst, k ∉ (m ++ [p]).map Prod.fst := by
      intro k hk
      simp only [List.map_append, List.mem_append, List.map_cons, List.map_nil,
        List.mem_singleton, not_or]
      refine ⟨hd k (by simp [hk]), ?_⟩
      intro hkp
      exact hph (hkp ▸ hk)
    calc (p :: l).foldl (fun m q => jsSet m q.1 q.2) m
        = l.foldl (fun m q => jsSet m q.1 q.2) (jsSet m p.1 p.2) := by simp
      _ = l.foldl (fun m q => jsSet m q.1 q.2) (m ++ [p]) := by
            rw [jsSet_of_not_mem _ hp]
      _ = (m ++ [p]) ++ l := foldl_jsSet_of_nodup l (m ++ [p]) hn' hd'
      _ = m ++ p :: l := by simp

theorem jsMapOfList_of_nodup [DecidableEq κ] {l : List (κ × β)}
    (h : (l.map Prod.fst).Nodup) : jsMapOfList l = l := by
  simpa using foldl_jsSet_of_nodup l [] h (by simp)

theorem jsLookup_eq_none_iff [DecidableEq κ] {m : JSMap κ β} {k : κ} :
    jsLookup m k = none ↔ k ∉ m.map Prod.fst := by
  unfold jsLookup
  rw [Option.map_eq_none', List.find?_eq_none]
  constructor
  · intro h hk
    obtain ⟨p, hp, hpk⟩ := List.mem_map.mp hk
    exact h p hp (by simp [hpk])
  · intro h p hp hpk
    exact h (List.mem_map.mpr ⟨p, hp, by simpa using hpk⟩)

theorem jsLookup_isSome_iff [DecidableEq κ] {m : JSMap κ β} {k : κ} :
    (jsLookup m k).isSome ↔ k ∈ m.map Prod.fst := by
  rw [Option.isSome_iff_ne_none, ne_eq, jsLookup_eq_none_iff, not_not]

theorem jsLookup_get_of_nodup [DecidableEq κ] :
    ∀ {m : JSMap κ β}, (m.map Prod.fst).Nodup → ∀ j : Fin m.length,
      jsLookup m (m.get j).1 = some (m.get j).2
  | [], _, j => absurd j.isLt (by simp)
  | p :: m, _, ⟨0, _⟩ => by simp [jsLookup]
  | p :: m, hn, ⟨jv + 1, hj⟩ => by
    have hn' : (m.map Prod.fst).Nodup := (List.nodup_cons.mp hn).2
    have hph : p.1 ∉ m.map Prod.fst := (List.nodup_cons.mp hn).1
    have hj' : jv < m.length := by simpa using hj
    have hget : (p :: m).get ⟨jv + 1, hj⟩ = m.get ⟨jv, hj'⟩ := rfl
    have hkey : (m.get ⟨jv, hj'⟩).1 ∈ m.map Prod.fst :=
      List.mem_map.mpr ⟨m.get ⟨jv, hj'⟩, List.get_mem m jv hj', rfl⟩
    have hne : decide (p.1 = (m.get ⟨jv, hj'⟩).1) = false := by
      simp only [decide_eq_false_iff_not]
      exact fun h => hph (h ▸ hkey)
    have ih := jsLookup_get_of_nodup hn' ⟨jv, hj'⟩
    rw [hget]
    unfold jsLookup at ih ⊢
    rw [List.find?_cons, hne]
    exact ih

/-! ## Lemmas about first-occurrence deduplication -/

theorem mem_uniqAux [DecidableEq α] (x : α) :
    ∀ (l seen : List α), x ∈ uniqAux seen l ↔ x ∈ l ∧ x ∉ seen
  | [], seen => by simp [uniqAux]
  | a :: l, seen => by
    by_cases ha : a ∈ seen
    · rw [uniqAux, if_pos ha, mem_uniqAux x l seen]
      constructor
      · rintro ⟨h1, h2⟩
        exact ⟨List.mem_cons_of_mem _ h1, h2⟩
      · rintro ⟨h1, h2⟩
        rcases List.mem_cons.mp h1 with rfl | h1
        · exact absurd ha h2
        · exact ⟨h1, h2⟩
    · rw [uniqAux, if_neg ha, List.mem_cons, mem_uniqAux x l (a :: seen)]
      constructor
      · rintro (rfl | ⟨h1, h2⟩)
        · exact ⟨List.mem_cons_self _ _, ha⟩
        · exact ⟨List.mem_cons_of_mem _ h1, fun hh => h2 (List.mem_cons_of_mem _ hh)⟩
      · rintro ⟨h1, h2⟩
        rcases List.mem_cons.mp h1 with rfl | h1
        · exact Or.inl rfl
        · by_cases hxa : x = a
          · exact Or.inl hxa
          · exact Or.inr ⟨h1, by simp [List.mem_cons, hxa, h2]⟩

theorem nodup_uniqAux [DecidableEq α] : ∀ (l seen : List α), (uniqAux seen l).Nodup
  | [], _ => List.nodup_nil
  | a :: l, seen => by
    rw [uniqAux]
    split
    · exact nodup_uniqAux l seen
    · rw [List.nodup_cons]
      refine ⟨fun h => ?_, nodup_uniqAux l (a :: seen)⟩
      exact ((mem_uniqAux a l (a :: seen)).mp h).2 (List.mem_cons_self _ _)

theorem mem_uniq [DecidableEq α] {l : List α} {x : α} : x ∈ uniq l ↔ x ∈ l := by
  rw [uniq, mem_uniqAux]
  simp

theorem nodup_uniq [DecidableEq α] (l : List α) : (uniq l).Nodup := nodup_uniqAux l []

/-! ## C7: the load-time buffer filter is idempotent -/

/-- C7: filtering the country rows to the fixed allowed-buffer set is
idempotent — every surviving row's buffer is already in the allowed set, so a
second application of the filter drops nothing. -/
theorem buffer_filter_idempotent (rows : List Row) :
    filterRows (filterRows rows) = filterRows rows := by
  unfold filterRows
  rw [List.filter_filter]
  simp

/-! ## C8: entity-code resolution -/

theorem featureIso3Go_eq_head (l : List (Option String)) :
    featureIso3Go l = (l.filterMap resolveCandidate).head? := by
  induction l with
  | nil => rfl
  | cons c rest ih =>
    cases c with
    | none => simpa [featureIso3Go, resolveCandidate] using ih
    | some s =>
      by_cases hs : s = ""
      · subst hs
        have h0 : isThreeLetters (jsTrim "") = false := by decide
        simp [featureIso3Go, resolveCandidate, h0, ih]
      · by_cases h3 : isThreeLetters (jsTrim s)
        · simp [featureIso3Go, resolveCandidate, hs, h3]
        · simp [featureIso3Go, resolveCandidate, hs, h3, ih]

/-- C8: the source's candidate loop is exactly the claim's resolution
procedure — scan the prioritized candidate fields in order (feature id first,
then the alternate ISO-code property spellings), take the first candidate that
is exactly three letters after trimming, uppercase it, remap it through the
fixed alias table (ANT→NLD, KOS→XKX); return "no entity" when no candidate
resolves. -/
theorem featureIso3_eq_spec (f : Feature) : featureIso3 f = featureIso3Spec f :=
  featureIso3Go_eq_head (candidates f)

/-! ## C3: point-index lookup echoes the source row -/

theorem exposureByKey_lookup (rows : List Row) (hPK : (rows.map rowKey).Nodup) :
    ∀ r ∈ rows, jsLookup (exposureByKey rows) (rowKey r) = some r := by
  intro r hr
  have hkeys : ((rows.map (fun d => (rowKey d, d))).map Prod.fst).Nodup := by
    rw [List.map_map]
    exact hPK
  rw [exposureByKey, jsMapOfList_of_nodup hkeys]
  obtain ⟨j, hj⟩ := List.mem_iff_get.mp hr
  have hlen : (j : ℕ) < (rows.map (fun d => (rowKey d, d))).length := by
    simpa using j.isLt
  have hget : (rows.map (fun d => (rowKey d, d))).get ⟨j, hlen⟩ = (rowKey r, r) := by
    simp only [List.get_eq_getElem, List.getElem_map]
    rw [← List.get_eq_getElem, hj]
  have hlu := jsLookup_get_of_nodup hkeys ⟨j, hlen⟩
  rw [hget] at hlu
  exact hlu

/-- C3: under the primary-key precondition (the (entity, year, buffer) triple
is unique across the filtered rows), looking the point index up at any
filtered row's key returns exactly that row, fields unchanged. -/
theorem point_index_echoes_row (raw : List Row)
    (hPK : ((filterRows raw).map rowKey).Nodup) :
    ∀ r ∈ filterRows raw,
      jsLookup (exposureByKey (filterRows raw)) (rowKey r) = some r :=
  exposureByKey_lookup (filterRows raw) hPK

/-- Witness for C3 at a concrete store. -/
theorem point_index_echoes_row_witness :
    jsLookup (exposureByKey (filterRows rowsTwo))
      (rowKey (mkRow "AAA" 1990 30 (some 2) (.num 5) (some 1))) =
    some (mkRow "AAA" 1990 30 (some 2) (.num 5) (some 1)) :=
  point_index_echoes_row rowsTwo (by decide)
    (mkRow "AAA" 1990 30 (some 2) (.num 5) (some 1)) (by decide)

/-! ## C5 and C6: the playback controller -/

theorem getD_years_mem (n : Nat) (h : n < years.length) : years.getD n 0 ∈ years := by
  have h3 : n < 3 := by simpa [years] using h
  interval_cases n <;> decide

theorem pbInv_init : PBInv initPB :=
  ⟨by decide, fun _ => ⟨rfl, rfl⟩, fun h => nomatch h⟩

theorem pbInv_click {s : PB} (h : PBInv s) : PBInv (clickPlay s) := by
  obtain ⟨hy, hstop, hrun⟩ := h
  by_cases hp : s.playing
  · obtain ⟨t, ht, hpt, _, _⟩ := hrun hp
    rw [clickPlay, if_pos hp]
    refine ⟨hy, fun _ => ⟨?_, rfl⟩, fun hc => by simp [stopPlayback] at hc⟩
    show (match s.playTimer with
      | some h => s.timers.filter (fun t => decide (t.tid ≠ h))
      | none => s.timers) = []
    rw [hpt, ht]
    simp
  · rw [clickPlay, if_neg hp]
    have hb : s.playing = false := by simpa using hp
    obtain ⟨hT, _⟩ := hstop hb
    refine ⟨hy, fun hc => by simp [startPlayback] at hc, fun _ => ?_⟩
    refine ⟨⟨s.nextId, yearIdx s.year⟩, ?_, rfl, ?_, ?_⟩
    · show s.timers ++ [⟨s.nextId, yearIdx s.year⟩] = [⟨s.nextId, yearIdx s.year⟩]
      rw [hT]
      rfl
    · show yearIdx s.year < years.length
      have hcase : s.year = 1990 ∨ s.year = 2000 ∨ s.year = 2010 := by simpa [years] using hy
      rcases hcase with hc | hc | hc <;> rw [hc] <;> decide
    · show years.getD (yearIdx s.year) 0 = s.year
      have hcase : s.year = 1990 ∨ s.year = 2000 ∨ s.year = 2010 := by simpa [years] using hy
      rcases hcase with hc | hc | hc <;> rw [hc] <;> decide

theorem pbInv_tick (h : Nat) {s : PB} (hi : PBInv s) : PBInv (tick h s) := by
  obtain ⟨hy, hstop, hrun⟩ := hi
  by_cases hp : s.playing
  · obtain ⟨t, ht, hpt, hidx, hgY⟩ := hrun hp
    by_cases hh : t.tid = h
    · have hf : s.timers.find? (fun u => decide (u.tid = h)) = some t := by
        rw [ht]
        simp [hh]
      simp only [tick, hf]
      refine ⟨?_, fun hc => ?_, fun _ => ?_⟩
      · exact getD_years_mem _ (Nat.mod_lt _ (by simp [years]))
      · exact absurd hp (by simp [show s.playing = false from hc])
      · refine ⟨⟨t.tid, (t.idx + 1) % years.length⟩, ?_, hpt, ?_, rfl⟩
        · show s.timers.map _ = _
          rw [ht]
          simp
        · exact Nat.mod_lt _ (by simp [years])
    · have hf : s.timers.find? (fun u => decide (u.tid = h)) = none := by
        rw [ht]
        simp [hh]
      simp only [tick, hf]
      exact ⟨hy, hstop, hrun⟩
  · have hb : s.playing = false := by simpa using hp
    obtain ⟨hT, _⟩ := hstop hb
    have hf : s.timers.find? (fun u => decide (u.tid = h)) = none := by
      rw [hT]
      rfl
    simp only [tick, hf]
    exact ⟨hy, hstop, hrun⟩

theorem reachable_inv : ∀ {s : PB}, Reachable s → PBInv s := by
  intro s h
  induction h with
  | init => exact pbInv_init
  | click _ ih => exact pbInv_click ih
  | tick h _ ih => exact pbInv_tick h ih

/-- C5: at every reachable state of the playback controller at most one
interval is live (never two timers concurrently); pressing play while running
never registers a second timer (the click is handled as a stop); and stopping
while already stopped leaves the state unchanged. -/
theorem playback_single_timer (s : PB) (h : Reachable s) :
    s.timers.length ≤ 1 ∧
    (s.playing = true → (clickPlay s).timers = []) ∧
    (s.playing = false → stopPlayback s = s) := by
  obtain ⟨hy, hstop, hrun⟩ := reachable_inv h
  refine ⟨?_, ?_, ?_⟩
  · by_cases hp : s.playing
    · obtain ⟨t, ht, _⟩ := hrun hp
      rw [ht]
      simp
    · rw [(hstop (by simpa using hp)).1]
      simp
  · intro hp
    obtain ⟨t, ht, hpt, _, _⟩ := hrun hp
    rw [clickPlay, if_pos hp]
    show (match s.playTimer with
      | some h => s.timers.filter (fun t => decide (t.tid ≠ h))
      | none => s.timers) = []
    rw [hpt, ht]
    simp
  · intro hp
    obtain ⟨hT, hN⟩ := hstop hp
    have hstopEq : stopPlayback s = ⟨false, s.year, s.timers, none, s.nextId⟩ := by
      simp [stopPlayback, hN]
    rw [hstopEq, ← hp, ← hN]

/-- Witness for C5 at the initial state. -/
theorem playback_single_timer_witness :
    initPB.timers.length ≤ 1 ∧
    (initPB.playing = true → (clickPlay initPB).timers = []) ∧
    (initPB.playing = false → stopPlayback initPB = initPB) :=
  playback_single_timer initPB Reachable.init

/-- C6: while playback is running there is exactly one live interval, and its
tick advances the year to the next element of the fixed year sequence,
wrapping to the first after the last, leaving playback running. -/
theorem getD_succ_nextYear (n : Nat) (h : n < 3) :
    years.getD ((n + 1) % years.length) 0 = nextYearSpec (years.getD n 0) := by
  interval_cases n <;> decide

theorem playback_tick_advances_year (s : PB) (h : Reachable s) (hp : s.playing = true) :
    ∃ t : Timer, s.timers = [t] ∧ s.playTimer = some t.tid ∧
      (tick t.tid s).year = nextYearSpec s.year ∧ (tick t.tid s).playing = true := by
  obtain ⟨hy, hstop, hrun⟩ := reachable_inv h
  obtain ⟨t, ht, hpt, hidx, hgY⟩ := hrun hp
  have hf : s.timers.find? (fun u => decide (u.tid = t.tid)) = some t := by
    rw [ht]
    simp
  refine ⟨t, ht, hpt, ?_, ?_⟩
  · simp only [tick, hf]
    show years.getD ((t.idx + 1) % years.length) 0 = nextYearSpec s.year
    rw [← hgY]
    exact getD_succ_nextYear t.idx (by simpa [years] using hidx)
  · simp only [tick, hf]
    exact hp

/-- Witness for C6: after starting from the initial state and one tick the
year is 1990 and playback is running; the theorem applies there, and three
further concrete ticks produce 2000, 2010, 1990 — the wrapped traversal of the
fixed year sequence. -/
theorem playback_tick_advances_year_witness :
    (∃ t : Timer, (tick 1 (clickPlay initPB)).timers = [t] ∧
      (tick 1 (clickPlay initPB)).playTimer = some t.tid ∧
      (tick t.tid (tick 1 (clickPlay initPB))).year =
        nextYearSpec (tick 1 (clickPlay initPB)).year ∧
      (tick t.tid (tick 1 (clickPlay initPB))).playing = true) ∧
    (tick 1 (clickPlay initPB)).year = 1990 ∧
    (tick 1 (tick 1 (clickPlay initPB))).year = 2000 ∧
    (tick 1 (tick 1 (tick 1 (clickPlay initPB)))).year = 2010 ∧
    (tick 1 (tick 1 (tick 1 (tick 1 (clickPlay initPB))))).year = 1990 :=
  ⟨playback_tick_advances_year (tick 1 (clickPlay initPB))
      (Reachable.tick 1 (Reachable.click Reachable.init)) (by decide),
    by decide, by decide, by decide, by decide⟩

/-! ## C4 and C10: the per-buffer maximum-delta map -/

theorem jsLookup_jsSet_self [DecidableEq κ] (m : JSMap κ β) (k : κ) (v : β) :
    jsLookup (jsSet m k v) k = some v := by
  unfold jsSet
  by_cases hany : m.any (fun p => decide (p.1 = k))
  · rw [if_pos hany]
    unfold jsLookup
    rw [List.find?_map]
    have hpred : ((fun p : κ × β => decide (p.1 = k)) ∘ fun p => if p.1 = k then (k, v) else p) =
        fun p : κ × β => decide (p.1 = k) := by
      funext p
      by_cases hp : p.1 = k
      · simp [hp]
      · simp [hp]
    rw [hpred]
    obtain ⟨p₀, hp₀m, hp₀⟩ := List.any_eq_true.mp hany
    have hsome : (m.find? fun p : κ × β => decide (p.1 = k)).isSome :=
      List.find?_isSome.mpr ⟨p₀, hp₀m, hp₀⟩
    obtain ⟨q, hq⟩ := Option.isSome_iff_exists.mp hsome
    have hqk : q.1 = k := by simpa using List.find?_some hq
    rw [hq]
    simp [hqk]
  · rw [if_neg hany]
    unfold jsLookup
    rw [List.find?_append]
    have hnone : m.find? (fun p : κ × β => decide (p.1 = k)) = none := by
      rw [List.find?_eq_none]
      intro x hx
      simp only [decide_eq_true_eq]
      intro hxk
      exact hany (List.any_eq_true.mpr ⟨x, hx, by simp [hxk]⟩)
    rw [hnone]
    simp [List.find?]

theorem jsLookup_jsSet_ne [DecidableEq κ] (m : JSMap κ β) {k k' : κ} (v : β)
    (hne : k' ≠ k) : jsLookup (jsSet m k v) k' = jsLookup m k' := by
  unfold jsSet
  by_cases hany : m.any (fun p => decide (p.1 = k))
  · rw [if_pos hany]
    unfold jsLookup
    rw [List.find?_map]
    have hpred : ((fun p : κ × β => decide (p.1 = k')) ∘ fun p => if p.1 = k then (k, v) else p) =
        fun p : κ × β => decide (p.1 = k') := by
      funext p
      by_cases hp : p.1 = k
      · simp [hp]
      · simp [hp]
    rw [hpred]
    cases hfind : m.find? (fun p : κ × β => decide (p.1 = k')) with
    | none => simp
    | some q =>
      have hqk : q.1 = k' := by simpa using List.find?_some hfind
      have hqknot : ¬ q.1 = k := fun hc => hne (hqk ▸ hc)
      simp [hqknot]
  · rw [if_neg hany]
    unfold jsLookup
    rw [List.find?_append]
    have h2 : List.find? (fun p : κ × β => decide (p.1 = k')) [(k, v)] = none := by
      simp [Ne.symm hne]
    rw [h2, Option.or_none]

theorem omax_none_right (x : Option Int) : omax x none = x := by
  cases x <;> rfl

theorem omax_some_omax (a c : Int) (x : Option Int) :
    omax (some a) (omax (some c) x) = omax (some (max a c)) x := by
  cases x <;> simp [omax, max_assoc]

theorem listMax_eq_none_iff (l : List Int) : listMax l = none ↔ l = [] := by
  cases l with
  | nil => simp [listMax]
  | cons v l =>
    rw [listMax]
    cases listMax l <;> simp [omax]

theorem listMax_spec : ∀ (l : List Int) (v : Int), listMax l = some v →
    v ∈ l ∧ ∀ x ∈ l, x ≤ v
  | [], v, h => by simp [listMax] at h
  | a :: l, v, h => by
    rw [listMax] at h
    cases hl : listMax l with
    | none =>
      rw [hl] at h
      simp only [omax, Option.some_inj] at h
      subst h
      have hnil : l = [] := (listMax_eq_none_iff l).mp hl
      subst hnil
      simp
    | some m =>
      rw [hl] at h
      simp only [omax, Option.some_inj] at h
      obtain ⟨hm, hb⟩ := listMax_spec l m hl
      subst h
      constructor
      · rcases le_total a m with hc | hc
        · rw [max_eq_right hc]
          exact List.mem_cons_of_mem _ hm
        · rw [max_eq_left hc]
          exact List.mem_cons_self _ _
      · intro x hx
        rcases List.mem_cons.mp hx with rfl | hx
        · exact le_max_left _ _
        · exact le_trans (hb x hx) (le_max_right _ _)

theorem posOf_eq_some_iff {b : Int} {e : (String × Int × Int) × Option Int} {v : Int} :
    posOf b e = some v ↔ e.2 = some v ∧ e.1.2.2 = b ∧ 0 < v := by
  unfold posOf
  cases he : e.2 with
  | none => simp
  | some w =>
    simp only []
    split_ifs with hc
    · simp only [Option.some_inj]
      constructor
      · rintro rfl
        exact ⟨rfl, hc.1, hc.2⟩
      · rintro ⟨hw, _, _⟩
        exact hw
    · constructor
      · intro h
        cases h
      · rintro ⟨hw, hb2, hv⟩
        injection hw with hw
        subst hw
        exact absurd ⟨hb2, hv⟩ hc

theorem maxStep_id_of_degenerate (m : JSMap Int Int)
    (e : (String × Int × Int) × Option Int)
    (hm : ∀ b' w, jsLookup m b' = some w → 0 < w)
    (hcase : e.2 = none ∨ e.2 = some 0) : maxStep m e = m := by
  rcases hcase with he | he
  · unfold maxStep
    rw [he]
  · unfold maxStep
    simp only [he]
    have hcond : ¬ (jsLookup m e.1.2.2).getD 0 < 0 := by
      cases hml : jsLookup m e.1.2.2 with
      | none => simp
      | some a =>
        simp only [Option.getD_some, not_lt]
        exact le_of_lt (hm _ _ hml)
    rw [if_neg hcond]

theorem foldl_maxStep_lookup :
    ∀ (es : List ((String × Int × Int) × Option Int)) (m : JSMap Int Int),
      (∀ b v, jsLookup m b = some v → 0 < v) →
      ∀ b, jsLookup (es.foldl maxStep m) b = omax (jsLookup m b) (listMax (posDeltas es b))
  | [], m, _, b => by
    simp only [List.foldl_nil, posDeltas, List.filterMap_nil, listMax, omax_none_right]
  | e :: es, m, hm, b => by
    rw [List.foldl_cons]
    have hm' : ∀ b' v, jsLookup (maxStep m e) b' = some v → 0 < v := by
      intro b' v hv
      unfold maxStep at hv
      cases he : e.2 with
      | none =>
        rw [he] at hv
        exact hm b' v hv
      | some w =>
        simp only [he] at hv
        split_ifs at hv with hlt
        · by_cases hb' : b' = e.1.2.2
          · subst hb'
            rw [jsLookup_jsSet_self] at hv
            injection hv with hv
            subst hv
            cases hml : jsLookup m e.1.2.2 with
            | none =>
              rw [hml] at hlt
              simpa using hlt
            | some a =>
              rw [hml] at hlt
              simp only [Option.getD_some] at hlt
              exact lt_trans (hm _ a hml) hlt
          · rw [jsLookup_jsSet_ne _ _ hb'] at hv
            exact hm b' v hv
        · exact hm b' v hv
    rw [foldl_maxStep_lookup es (maxStep m e) hm' b]
    cases he : e.2 with
    | none =>
      have h1 : maxStep m e = m := by
        unfold maxStep
        rw [he]
      have h2 : posOf b e = none := by
        unfold posOf
        rw [he]

      have h2' : posDeltas (e :: es) b = posDeltas es b := by
        simp [posDeltas, List.filterMap_cons, h2]
      rw [h1, h2']
    | some w =>
      by_cases hbb : e.1.2.2 = b
      · subst hbb
        by_cases hw : 0 < w
        · have h2 : posOf e.1.2.2 e = some w := posOf_eq_some_iff.mpr ⟨he, rfl, hw⟩
          have h2' : posDeltas (e :: es) e.1.2.2 = w :: posDeltas es e.1.2.2 := by
            simp [posDeltas, List.filterMap_cons, h2]
          rw [h2', listMax]
          cases hml : jsLookup m e.1.2.2 with
          | none =>
            have hstep : jsLookup (maxStep m e) e.1.2.2 = some w := by
              unfold maxStep
              simp only [he]
              rw [if_pos (by rw [hml]; simpa using hw), jsLookup_jsSet_self]
            rw [hstep]
            rfl
          | some a =>
            by_cases hlt : a < w
            · have hstep : jsLookup (maxStep m e) e.1.2.2 = some w := by
                unfold maxStep
                simp only [he]
                rw [if_pos (by rw [hml]; simpa using hlt), jsLookup_jsSet_self]
              rw [hstep, omax_some_omax, max_eq_right (le_of_lt hlt)]
            · have hstep : jsLookup (maxStep m e) e.1.2.2 = some a := by
                unfold maxStep
                simp only [he]
                rw [if_neg (by rw [hml]; simpa using hlt)]
                exact hml
              rw [hstep, omax_some_omax, max_eq_left (not_lt.mp hlt)]
        · have h2 : posOf e.1.2.2 e = none := by
            unfold posOf
            rw [he]
            simp [hw]
          have h2' : posDeltas (e :: es) e.1.2.2 = posDeltas es e.1.2.2 := by
            simp [posDeltas, List.filterMap_cons, h2]
          have h1 : maxStep m e = m := by
            unfold maxStep
            simp only [he]
            have hcond : ¬ (jsLookup m e.1.2.2).getD 0 < w := by
              cases hml : jsLookup m e.1.2.2 with
              | none =>
                simpa using fun hc => hw hc
              | some a =>
                simp only [Option.getD_some, not_lt]
                exact le_trans (le_of_not_lt hw) (le_of_lt (hm _ _ hml))
            rw [if_neg hcond]
          rw [h1, h2']
      · have h2 : posOf b e = none := by
          unfold posOf
          rw [he]
          simp [hbb]
        have h2' : posDeltas (e :: es) b = posDeltas es b := by
          simp [posDeltas, List.filterMap_cons, h2]
        have h1 : jsLookup (maxStep m e) b = jsLookup m b := by
          unfold maxStep
          simp only [he]
          split_ifs with hlt
          · exact jsLookup_jsSet_ne _ _ (fun hc => hbb hc.symm)
          · rfl
        rw [h1, h2']

theorem maxDeltaByBuffer_lookup (rows : List Row) (b : Int) :
    jsLookup (maxDeltaByBuffer rows) b = listMax (posDeltas (deltaEntries rows) b) := by
  unfold maxDeltaByBuffer
  rw [foldl_maxStep_lookup _ [] (by intro b' v hv; simp [jsLookup] at hv) b]
  rfl

/-- C10: the per-buffer maximum-delta map has an entry for a buffer iff some
strictly positive delta was computed for that buffer; every stored value is
strictly positive; and a delta of zero or "no value" never creates or updates
an entry (the update step is the identity on such deltas). -/
theorem maxDelta_entry_iff (rows : List Row) (b : Int) :
    (jsLookup (maxDeltaByBuffer rows) b ≠ none ↔
      ∃ e ∈ deltaEntries rows, e.1.2.2 = b ∧ ∃ v, e.2 = some v ∧ 0 < v) ∧
    (∀ v, jsLookup (maxDeltaByBuffer rows) b = some v → 0 < v) ∧
    (∀ (m : JSMap Int Int) (e : (String × Int × Int) × Option Int),
      (∀ b' w, jsLookup m b' = some w → 0 < w) →
      e.2 = none ∨ e.2 = some 0 → maxStep m e = m) := by
  have hlu := maxDeltaByBuffer_lookup rows b
  refine ⟨?_, ?_, fun m e hm hc => maxStep_id_of_degenerate m e hm hc⟩
  · rw [hlu]
    constructor
    · intro h
      cases hl : listMax (posDeltas (deltaEntries rows) b) with
      | none => exact absurd hl h
      | some v =>
        obtain ⟨e, he, hev⟩ := List.mem_filterMap.mp (listMax_spec _ v hl).1
        obtain ⟨h2, hb2, hv⟩ := posOf_eq_some_iff.mp hev
        exact ⟨e, he, hb2, v, h2, hv⟩
    · rintro ⟨e, he, hb2, v, hev, hv⟩ hc
      have hmem : v ∈ posDeltas (deltaEntries rows) b :=
        List.mem_filterMap.mpr ⟨e, he, posOf_eq_some_iff.mpr ⟨hev, hb2, hv⟩⟩
      rw [listMax_eq_none_iff] at hc
      rw [hc] at hmem
      cases hmem
  · intro v hv
    rw [hlu] at hv
    obtain ⟨e, he, hev⟩ := List.mem_filterMap.mp (listMax_spec _ v hv).1
    exact (posOf_eq_some_iff.mp hev).2.2

/-- Witness for C10: in a concrete store the buffer-30 entry exists because a
strictly positive delta (4) was computed there. -/
theorem maxDelta_entry_iff_witness :
    jsLookup (maxDeltaByBuffer rowsTwo) 30 ≠ none :=
  (maxDelta_entry_iff rowsTwo 30).1.mpr
    ⟨(("AAA", 2000, 30), some 4), by decide, rfl, 4, rfl, by decide⟩

/-- C4: when a strictly positive delta exists at a buffer, the normalization
bound `maxDeltaByBuffer.get(buffer) || 1` is attained by a computed delta at
that buffer and bounds every computed delta there (it is their maximum); when
no strictly positive delta exists, the bound defaults to 1. -/
theorem maxPositiveDelta_spec (rows : List Row) (b : Int) :
    ((∃ e ∈ deltaEntries rows, e.1.2.2 = b ∧ ∃ v, e.2 = some v ∧ 0 < v) →
      (∃ e ∈ deltaEntries rows, e.1.2.2 = b ∧ e.2 = some (maxPositiveDelta rows b)) ∧
      (∀ e ∈ deltaEntries rows, e.1.2.2 = b → ∀ v, e.2 = some v →
        v ≤ maxPositiveDelta rows b)) ∧
    ((¬ ∃ e ∈ deltaEntries rows, e.1.2.2 = b ∧ ∃ v, e.2 = some v ∧ 0 < v) →
      maxPositiveDelta rows b = 1) := by
  have hlu := maxDeltaByBuffer_lookup rows b
  constructor
  · rintro ⟨e, he, hb2, v, hev, hv⟩
    have hmem : v ∈ posDeltas (deltaEntries rows) b :=
      List.mem_filterMap.mpr ⟨e, he, posOf_eq_some_iff.mpr ⟨hev, hb2, hv⟩⟩
    cases hl : listMax (posDeltas (deltaEntries rows) b) with
    | none =>
      rw [listMax_eq_none_iff] at hl
      rw [hl] at hmem
      cases hmem
    | some M =>
      obtain ⟨hMmem, hMbound⟩ := listMax_spec _ M hl
      obtain ⟨e', he', hev'⟩ := List.mem_filterMap.mp hMmem
      obtain ⟨h2', hb2', hM⟩ := posOf_eq_some_iff.mp hev'
      have hval : maxPositiveDelta rows b = M := by
        unfold maxPositiveDelta
        rw [hlu, hl]
        simp [Int.ne_of_gt hM]
      constructor
      · exact ⟨e', he', hb2', hval ▸ h2'⟩
      · intro e'' he'' hb'' w hw
        rw [hval]
        by_cases hwpos : 0 < w
        · exact hMbound w (List.mem_filterMap.mpr
            ⟨e'', he'', posOf_eq_some_iff.mpr ⟨hw, hb'', hwpos⟩⟩)
        · exact le_trans (le_of_not_lt hwpos) (le_of_lt hM)
  · intro hno
    have hempty : posDeltas (deltaEntries rows) b = [] := by
      rw [posDeltas, List.filterMap_eq_nil]
      intro e he
      cases hp : posOf b e with
      | none => rfl
      | some v =>
        obtain ⟨h2, hb2, hv⟩ := posOf_eq_some_iff.mp hp
        exact absurd ⟨e, he, hb2, v, h2, hv⟩ hno
    unfold maxPositiveDelta
    rw [hlu, hempty]
    rfl

/-- Witness for C4: in a concrete store the bound at buffer 30 is attained by
a computed delta entry. -/
theorem maxPositiveDelta_spec_witness :
    ∃ e ∈ deltaEntries rowsTwo, e.1.2.2 = 30 ∧
      e.2 = some (maxPositiveDelta rowsTwo 30) :=
  ((maxPositiveDelta_spec rowsTwo 30).1
    ⟨(("AAA", 2000, 30), some 4), by decide, rfl, 4, rfl, by decide⟩).1

/-! ## C2: the rank index -/

theorem mem_subsetAt {rows : List Row} {y b : Int} {r : Row} :
    r ∈ subsetAt rows y b ↔ r ∈ rows ∧ r.year = y ∧ r.buffer_km = b ∧ r.pct_near.isSome := by
  simp [subsetAt, List.mem_filter, and_assoc]

theorem subsetAt_iso3_nodup (rows : List Row) (y b : Int)
    (hPK : (rows.map rowKey).Nodup) : ((subsetAt rows y b).map Row.iso3).Nodup := by
  have hsub : ((subsetAt rows y b).map rowKey).Nodup :=
    List.Nodup.sublist ((List.filter_sublist rows).map rowKey) hPK
  have hmapeq : (subsetAt rows y b).map rowKey =
      ((subsetAt rows y b).map Row.iso3).map (fun s => (s, y, b)) := by
    rw [List.map_map]
    apply List.map_congr_left
    intro r hr
    obtain ⟨_, hy, hb, _⟩ := mem_subsetAt.mp hr
    simp [rowKey, hy, hb, Function.comp]
  rw [hmapeq] at hsub
  exact hsub.of_map _

theorem sortedAt_perm (rows : List Row) (y b : Int) :
    (sortedAt rows y b).Perm (subsetAt rows y b) :=
  List.perm_insertionSort descR _

theorem sortedAt_iso3_nodup (rows : List Row) (y b : Int)
    (hPK : (rows.map rowKey).Nodup) : ((sortedAt rows y b).map Row.iso3).Nodup :=
  (((sortedAt_perm rows y b).map Row.iso3).nodup_iff).mpr (subsetAt_iso3_nodup rows y b hPK)

theorem rankPairs_keys (rows : List Row) (y b : Int) :
    (rankPairs rows y b).map Prod.fst = (sortedAt rows y b).map Row.iso3 := by
  unfold rankPairs
  rw [List.map_map]
  have hcomp : (Prod.fst ∘ fun p : Nat × Row => (p.2.iso3, p.1 + 1)) =
      Row.iso3 ∘ Prod.snd := rfl
  rw [hcomp, ← List.map_map, List.enum_map_snd]

theorem rankMapAt_eq (rows : List Row) (y b : Int) (hPK : (rows.map rowKey).Nodup) :
    rankMapAt rows y b = rankPairs rows y b := by
  apply jsMapOfList_of_nodup
  rw [rankPairs_keys]
  exact sortedAt_iso3_nodup rows y b hPK

theorem rankPairs_length (rows : List Row) (y b : Int) :
    (rankPairs rows y b).length = (sortedAt rows y b).length := by
  simp [rankPairs]

theorem rank_lookup_pos (rows : List Row) (y b : Int) (hPK : (rows.map rowKey).Nodup)
    (j : Fin (sortedAt rows y b).length) :
    jsLookup (rankMapAt rows y b) ((sortedAt rows y b).get j).iso3 = some ((j : ℕ) + 1) := by
  rw [rankMapAt_eq rows y b hPK]
  have hkeys : ((rankPairs rows y b).map Prod.fst).Nodup := by
    rw [rankPairs_keys]
    exact sortedAt_iso3_nodup rows y b hPK
  have hlen : (j : ℕ) < (rankPairs rows y b).length := by
    rw [rankPairs_length]
    exact j.isLt
  have hget : (rankPairs rows y b).get ⟨j, hlen⟩ =
      (((sortedAt rows y b).get j).iso3, (j : ℕ) + 1) := by
    unfold rankPairs
    simp [List.get_eq_getElem, List.getElem_map, List.getElem_enum]
  have h := jsLookup_get_of_nodup hkeys ⟨j, hlen⟩
  rw [hget] at h
  exact h

theorem rankByYearBuffer_lookup (rows : List Row) {y b : Int}
    (hy : y ∈ years) (hb : b ∈ buffers) :
    jsLookup (rankByYearBuffer rows) (y, b) = some (rankMapAt rows y b) := by
  have hkeys : ((years.flatMap
      (fun y => buffers.map (fun b => ((y, b), rankMapAt rows y b)))).map Prod.fst).Nodup := by
    simp [years, buffers]
  rw [rankByYearBuffer, jsMapOfList_of_nodup hkeys]
  have hy' : y = 1990 ∨ y = 2000 ∨ y = 2010 := by simpa [years] using hy
  have hb' : b = 30 ∨ b = 75 ∨ b = 300 := by simpa [buffers] using hb
  rcases hy' with rfl | rfl | rfl <;> rcases hb' with rfl | rfl | rfl <;>
    simp [jsLookup, years, buffers]

theorem pair_sublist_get {α : Type} {a c : α} :
    ∀ {l : List α}, [a, c].Sublist l →
      ∃ i j : Fin l.length, (i : ℕ) < (j : ℕ) ∧ l.get i = a ∧ l.get j = c := by
  intro l h
  induction l with
  | nil => exact absurd h (by simp)
  | cons x l ih =>
    cases h with
    | cons _ h2 =>
      obtain ⟨i, j, hij, hi, hj⟩ := ih h2
      exact ⟨i.succ, j.succ, by simpa using hij, by simpa using hi, by simpa using hj⟩
    | cons₂ _ h2 =>
      obtain ⟨j, hj⟩ := List.mem_iff_get.mp (List.singleton_sublist.mp h2)
      exact ⟨⟨0, by simp⟩, j.succ, by simp, rfl, by simpa using hj⟩

theorem sortedAt_sorted (rows : List Row) (y b : Int) :
    List.Sorted descR (sortedAt rows y b) :=
  List.sorted_insertionSort descR _

/-- C2: for every (year, buffer) pair of the fixed cross product, under the
primary-key precondition, the rank index stores the ranks 1..N in sorted order
(N the number of rows with non-null percentage at the pair, hence no gaps or
duplicates); an entity has a rank iff it has such a row at the pair; strictly
larger shares get strictly smaller ranks; and ties are broken by input order
(stability of the descending sort). -/
theorem rank_index_correct (rows : List Row) (hPK : (rows.map rowKey).Nodup)
    (y b : Int) (hy : y ∈ years) (hb : b ∈ buffers) :
    jsLookup (rankByYearBuffer rows) (y, b) = some (rankMapAt rows y b) ∧
    (rankMapAt rows y b).map Prod.snd = List.range' 1 (subsetAt rows y b).length ∧
    (∀ e : String, (jsLookup (rankMapAt rows y b) e).isSome ↔
      ∃ r ∈ subsetAt rows y b, r.iso3 = e) ∧
    (∀ a c, a ∈ subsetAt rows y b → c ∈ subsetAt rows y b → pctv c < pctv a →
      ∃ ra rc, jsLookup (rankMapAt rows y b) a.iso3 = some ra ∧
        jsLookup (rankMapAt rows y b) c.iso3 = some rc ∧ ra < rc) ∧
    (∀ a c, [a, c].Sublist (subsetAt rows y b) → pctv a = pctv c →
      ∃ ra rc, jsLookup (rankMapAt rows y b) a.iso3 = some ra ∧
        jsLookup (rankMapAt rows y b) c.iso3 = some rc ∧ ra < rc) := by
  refine ⟨rankByYearBuffer_lookup rows hy hb, ?_, ?_, ?_, ?_⟩
  · rw [rankMapAt_eq rows y b hPK]
    unfold rankPairs
    rw [List.map_map]
    have hcomp : (Prod.snd ∘ fun p : Nat × Row => (p.2.iso3, p.1 + 1)) =
        (fun n => n + 1) ∘ Prod.fst := rfl
    rw [hcomp, ← List.map_map, List.enum_map_fst, List.range'_eq_map_range,
      (sortedAt_perm rows y b).length_eq]
    apply List.map_congr_left
    intro n _
    omega
  · intro e
    rw [rankMapAt_eq rows y b hPK, jsLookup_isSome_iff, rankPairs_keys, List.mem_map]
    constructor
    · rintro ⟨r, hr, rfl⟩
      exact ⟨r, (sortedAt_perm rows y b).mem_iff.mp hr, rfl⟩
    · rintro ⟨r, hr, rfl⟩
      exact ⟨r, (sortedAt_perm rows y b).mem_iff.mpr hr, rfl⟩
  · intro a c ha hc hlt
    obtain ⟨ia, hia⟩ := List.mem_iff_get.mp ((sortedAt_perm rows y b).mem_iff.mpr ha)
    obtain ⟨ic, hic⟩ := List.mem_iff_get.mp ((sortedAt_perm rows y b).mem_iff.mpr hc)
    have horder : (ia : ℕ) < (ic : ℕ) := by
      rcases lt_trichotomy (ia : ℕ) (ic : ℕ) with h | h | h
      · exact h
      · exfalso
        have hac : a = c := by
          rw [← hia, ← hic]
          congr 1
          exact Fin.ext h
        rw [hac] at hlt
        exact lt_irrefl _ hlt
      · exfalso
        have hp := List.pairwise_iff_get.mp (sortedAt_sorted rows y b) ic ia h
        rw [hia, hic] at hp
        simp only [descR] at hp
        exact absurd hp (not_le.mpr hlt)
    refine ⟨(ia : ℕ) + 1, (ic : ℕ) + 1, ?_, ?_, Nat.succ_lt_succ horder⟩
    · have h := rank_lookup_pos rows y b hPK ia
      rw [hia] at h
      exact h
    · have h := rank_lookup_pos rows y b hPK ic
      rw [hic] at h
      exact h
  · intro a c hsub heq
    have hdesc : descR a c := by
      simp only [descR]
      exact le_of_eq heq.symm
    have hsorted : [a, c].Sublist (sortedAt rows y b) :=
      List.pair_sublist_insertionSort hdesc hsub
    obtain ⟨ia, ic, hord, hia, hic⟩ := pair_sublist_get hsorted
    refine ⟨(ia : ℕ) + 1, (ic : ℕ) + 1, ?_, ?_, Nat.succ_lt_succ hord⟩
    · have h := rank_lookup_pos rows y b hPK ia
      rw [hia] at h
      exact h
    · have h := rank_lookup_pos rows y b hPK ic
      rw [hic] at h
      exact h

/-- Witness for C2 at a concrete store: the (2010, 30) pair has two ranked
entities, ranks are exactly [1, 2], and the rank index is reachable from the
year-buffer map. -/
theorem rank_index_correct_witness :
    jsLookup (rankByYearBuffer rowsRank) (2010, 30) = some (rankMapAt rowsRank 2010 30) ∧
    (rankMapAt rowsRank 2010 30).map Prod.snd =
      List.range' 1 (subsetAt rowsRank 2010 30).length :=
  ⟨(rank_index_correct rowsRank (by decide) 2010 30 (by decide) (by decide)).1,
   (rank_index_correct rowsRank (by decide) 2010 30 (by decide) (by decide)).2.1⟩

/-! ## C9: absent rank and the percentile guard -/

theorem mem_keys_jsSet [DecidableEq κ] {m : JSMap κ β} {k k' : κ} {v : β} :
    k' ∈ (jsSet m k v).map Prod.fst ↔ k' ∈ m.map Prod.fst ∨ k' = k := by
  unfold jsSet
  by_cases hany : m.any (fun p => decide (p.1 = k))
  · rw [if_pos hany, List.map_map]
    have hcomp : (Prod.fst ∘ fun p : κ × β => if p.1 = k then (k, v) else p) = Prod.fst := by
      funext p
      by_cases hp : p.1 = k
      · simp [hp]
      · simp [hp]
    rw [hcomp]
    obtain ⟨p₀, hp₀m, hp₀⟩ := List.any_eq_true.mp hany
    have hk : k ∈ m.map Prod.fst :=
      List.mem_map.mpr ⟨p₀, hp₀m, by simpa using hp₀⟩
    constructor
    · exact Or.inl
    · rintro (h | rfl)
      · exact h
      · exact hk
  · rw [if_neg hany]
    simp [List.map_append]

theorem mem_keys_foldl_jsSet [DecidableEq κ] :
    ∀ (l : List (κ × β)) (m : JSMap κ β) (k : κ),
      (k ∈ (l.foldl (fun m p => jsSet m p.1 p.2) m).map Prod.fst ↔
        k ∈ m.map Prod.fst ∨ k ∈ l.map Prod.fst)
  | [], m, k => by simp
  | p :: l, m, k => by
    rw [List.foldl_cons, mem_keys_foldl_jsSet l (jsSet m p.1 p.2) k, mem_keys_jsSet]
    simp [or_assoc]

theorem mem_keys_jsMapOfList [DecidableEq κ] {l : List (κ × β)} {k : κ} :
    k ∈ (jsMapOfList l).map Prod.fst ↔ k ∈ l.map Prod.fst := by
  rw [jsMapOfList, mem_keys_foldl_jsSet]
  simp

theorem rankKeys_nodup (rows : List Row) :
    ((years.flatMap
      (fun y => buffers.map (fun b => ((y, b), rankMapAt rows y b)))).map Prod.fst).Nodup := by
  simp [years, buffers]

theorem rankByYearBuffer_lookup_some {rows : List Row} {y b : Int} {m : JSMap String Nat}
    (h : jsLookup (rankByYearBuffer rows) (y, b) = some m) : m = rankMapAt rows y b := by
  unfold rankByYearBuffer at h
  rw [jsMapOfList_of_nodup (rankKeys_nodup rows)] at h
  unfold jsLookup at h
  cases hf : (years.flatMap
      (fun y => buffers.map (fun b => ((y, b), rankMapAt rows y b)))).find?
        (fun p => decide (p.1 = (y, b))) with
  | none =>
    rw [hf] at h
    cases h
  | some p =>
    rw [hf] at h
    injection h with h
    have hkey : p.1 = (y, b) := by simpa using List.find?_some hf
    have hmem := List.mem_of_find?_eq_some hf
    rw [List.mem_flatMap] at hmem
    obtain ⟨y', _, hmem⟩ := hmem
    rw [List.mem_map] at hmem
    obtain ⟨b', _, rfl⟩ := hmem
    have hy : y' = y := congrArg Prod.fst hkey
    have hb : b' = b := congrArg Prod.snd hkey
    rw [← h, hy, hb]

theorem rankAtQuery_none_of_no_data (rows : List Row) (y b : Int) (e : String)
    (hno : ¬ ∃ r ∈ rows, r.iso3 = e ∧ r.year = y ∧ r.buffer_km = b ∧ r.pct_near.isSome) :
    rankAtQuery rows y b e = none := by
  unfold rankAtQuery
  cases hlu : jsLookup (rankByYearBuffer rows) (y, b) with
  | none => rfl
  | some m =>
    rw [rankByYearBuffer_lookup_some hlu]
    rw [jsLookup_eq_none_iff]
    intro hmem
    rw [rankMapAt, mem_keys_jsMapOfList, rankPairs_keys, List.mem_map] at hmem
    obtain ⟨r, hr, rfl⟩ := hmem
    have hsub := (sortedAt_perm rows y b).mem_iff.mp hr
    obtain ⟨hrow, hy2, hb2, hpct⟩ := mem_subsetAt.mp hsub
    exact hno ⟨r, hrow, rfl, hy2, hb2, hpct⟩

/-- C9: a rank query for an entity with no non-null-percentage row at the
(year, buffer) pair returns "absent" rather than an error, and the percentile
computation is skipped (returns "absent") whenever the rank or the denominator
is absent or zero — so the division never runs on a zero denominator. -/
theorem rank_absent_guard (rows : List Row) (y b : Int) (e : String) :
    ((¬ ∃ r ∈ rows, r.iso3 = e ∧ r.year = y ∧ r.buffer_km = b ∧ r.pct_near.isSome) →
      rankAtQuery rows y b e = none ∧ pctRankQuery rows y b e = none) ∧
    (rankAtQuery rows y b e = none ∨ rankAtQuery rows y b e = some 0 ∨
      denomQuery rows y b = none ∨ denomQuery rows y b = some 0 →
      pctRankQuery rows y b e = none) := by
  have hguard : rankAtQuery rows y b e = none ∨ rankAtQuery rows y b e = some 0 ∨
      denomQuery rows y b = none ∨ denomQuery rows y b = some 0 →
      pctRankQuery rows y b e = none := by
    intro hc
    unfold pctRankQuery
    cases hr : rankAtQuery rows y b e with
    | none => rfl
    | some r =>
      cases hd : denomQuery rows y b with
      | none => rfl
      | some d =>
        simp only []
        rw [hr, hd] at hc
        have hrd : r = 0 ∨ d = 0 := by
          rcases hc with hc | hc | hc | hc
          · cases hc
          · exact Or.inl (by injection hc)
          · cases hc
          · exact Or.inr (by injection hc)
        rw [if_pos hrd]
  refine ⟨fun hno => ?_, hguard⟩
  have hr := rankAtQuery_none_of_no_data rows y b e hno
  exact ⟨hr, hguard (Or.inl hr)⟩

/-- Witness for C9: the ZZZ scenario — no percentage data for ZZZ at
(2010, 30), so the rank is absent and the percentile is skipped. -/
theorem rank_absent_guard_witness :
    rankAtQuery rowsRank 2010 30 "ZZZ" = none ∧
    pctRankQuery rowsRank 2010 30 "ZZZ" = none :=
  (rank_absent_guard rowsRank 2010 30 "ZZZ").1 (by decide)

/-! ## C1: the delta walk -/

theorem mem_groupRows {rows : List Row} {i : String} {b : Int} {r : Row} :
    r ∈ groupRows rows i b ↔ r ∈ rows ∧ r.iso3 = i ∧ r.buffer_km = b := by
  simp [groupRows, List.mem_filter, and_assoc]

theorem sortedGroup_perm (rows : List Row) (i : String) (b : Int) :
    (sortedGroup rows i b).Perm (groupRows rows i b) :=
  List.perm_insertionSort ascYearR _

theorem mem_sortedGroup {rows : List Row} {i : String} {b : Int} {r : Row} :
    r ∈ sortedGroup rows i b ↔ r ∈ rows ∧ r.iso3 = i ∧ r.buffer_km = b := by
  rw [(sortedGroup_perm rows i b).mem_iff, mem_groupRows]

theorem mem_groupPairs {rows : List Row} {i : String} {b : Int} :
    (i, b) ∈ groupPairs rows ↔ ∃ r ∈ rows, r.iso3 = i ∧ r.buffer_km = b := by
  unfold groupPairs
  rw [List.mem_flatMap]
  constructor
  · rintro ⟨i', hi', hmem⟩
    rw [List.mem_map] at hmem
    obtain ⟨b', hb', heq⟩ := hmem
    have h1 : i' = i := congrArg Prod.fst heq
    have h2 : b' = b := congrArg Prod.snd heq
    subst h1
    subst h2
    rw [bufKeysFor, mem_uniq, List.mem_map] at hb'
    obtain ⟨r, hr, hrb⟩ := hb'
    rw [List.mem_filter] at hr
    exact ⟨r, hr.1, by simpa using hr.2, hrb⟩
  · rintro ⟨r, hr, hri, hrb⟩
    refine ⟨i, ?_, ?_⟩
    · rw [isoKeys, mem_uniq, List.mem_map]
      exact ⟨r, hr, hri⟩
    · rw [List.mem_map]
      refine ⟨b, ?_, rfl⟩
      rw [bufKeysFor, mem_uniq, List.mem_map]
      refine ⟨r, ?_, hrb⟩
      rw [List.mem_filter]
      exact ⟨hr, by simpa using hri⟩

theorem groupPairs_nodup (rows : List Row) : (groupPairs rows).Nodup := by
  unfold groupPairs
  rw [List.nodup_flatMap]
  constructor
  · intro i _
    exact (nodup_uniq _).map (fun b1 b2 h => congrArg Prod.snd h)
  · have hiso : List.Pairwise (fun a c => a ≠ c) (uniq (rows.map Row.iso3)) :=
      nodup_uniq (rows.map Row.iso3)
    refine List.Pairwise.imp ?_ hiso
    intro i1 i2 hne p hp1 hp2
    rw [List.mem_map] at hp1 hp2
    obtain ⟨b1, _, rfl⟩ := hp1
    obtain ⟨b2, _, heq⟩ := hp2
    exact hne (congrArg Prod.fst heq).symm

theorem groupRows_year_nodup (rows : List Row) (i : String) (b : Int)
    (hPK : (rows.map rowKey).Nodup) : ((groupRows rows i b).map Row.year).Nodup := by
  have hsub : ((groupRows rows i b).map rowKey).Nodup :=
    List.Nodup.sublist ((List.filter_sublist rows).map rowKey) hPK
  have hmapeq : (groupRows rows i b).map rowKey =
      ((groupRows rows i b).map Row.year).map (fun y => (i, y, b)) := by
    rw [List.map_map]
    apply List.map_congr_left
    intro r hr
    obtain ⟨_, hi, hb⟩ := mem_groupRows.mp hr
    simp [rowKey, hi, hb, Function.comp]
  rw [hmapeq] at hsub
  exact hsub.of_map _

theorem sortedGroup_year_nodup (rows : List Row) (i : String) (b : Int)
    (hPK : (rows.map rowKey).Nodup) : ((sortedGroup rows i b).map Row.year).Nodup :=
  (((sortedGroup_perm rows i b).map Row.year).nodup_iff).mpr
    (groupRows_year_nodup rows i b hPK)

theorem sortedGroup_strict (rows : List Row) (i : String) (b : Int)
    (hPK : (rows.map rowKey).Nodup) :
    (sortedGroup rows i b).Pairwise (fun a c => a.year < c.year) := by
  have hs : List.Pairwise ascYearR (sortedGroup rows i b) :=
    List.sorted_insertionSort ascYearR _
  have hneq : (sortedGroup rows i b).Pairwise (fun a c => a.year ≠ c.year) := by
    have h0 : List.Pairwise (fun a c => a ≠ c) ((sortedGroup rows i b).map Row.year) :=
      sortedGroup_year_nodup rows i b hPK
    rw [List.pairwise_map] at h0
    exact h0
  exact (hs.and hneq).imp (fun h => lt_of_le_of_ne h.1 h.2)

theorem walk_cons (i : String) (b : Int) (prev : Option Row) (r : Row) (rest : List Row) :
    walk i b prev (r :: rest) =
      ((i, r.year, b),
        match prev with
        | none => none
        | some p => deltaOf r.pop_near p.pop_near) :: walk i b (some r) rest := by
  cases prev <;> rfl

theorem walk_keys_eq (i : String) (b : Int) :
    ∀ (g : List Row) (prev : Option Row),
      (walk i b prev g).map Prod.fst = g.map (fun r => (i, r.year, b))
  | [], prev => by cases prev <;> rfl
  | r :: g, prev => by
    rw [walk_cons, List.map_cons, walk_keys_eq i b g (some r), List.map_cons]

theorem walk_values (i : String) (b : Int) :
    ∀ (g : List Row) (prev : Option Row) (e : (String × Int × Int) × Option Int),
      e ∈ walk i b prev g →
      e.2 = none ∨ ∃ cur pv : JSNum, e.2 = deltaOf cur pv
  | [], prev, e, h => by cases prev <;> cases h
  | r :: g, prev, e, h => by
    rw [walk_cons] at h
    rcases List.mem_cons.mp h with rfl | h
    · cases prev with
      | none => exact Or.inl rfl
      | some p => exact Or.inr ⟨r.pop_near, p.pop_near, rfl⟩
    · exact walk_values i b g (some r) e h

theorem deltaOf_nonneg (cur pv : JSNum) (v : Int) (h : deltaOf cur pv = some v) : 0 ≤ v := by
  unfold deltaOf at h
  cases hs : jsSub cur pv with
  | num w =>
    rw [hs] at h
    simp only [] at h
    split_ifs at h with hw
    · injection h with h
      omega
    · injection h with h
      omega
  | nan =>
    rw [hs] at h
    cases h
  | null =>
    rw [hs] at h
    cases h

theorem deltaOf_num (a c : Int) :
    deltaOf (.num a) (.num c) = some (max 0 (a - c)) := by
  unfold deltaOf jsSub JSNum.toNumber
  simp only []
  split_ifs with h
  · rw [max_eq_left (by omega)]
  · rw [max_eq_right (by omega)]

theorem walk_find_hit (i : String) (b : Int) :
    ∀ (g : List Row) (prev : Option Row) (r : Row),
      r ∈ g →
      g.Pairwise (fun a c => a.year < c.year) →
      ∃ d : Option Int,
        (walk i b prev g).find? (fun e => decide (e.1 = (i, r.year, b))) =
          some ((i, r.year, b), d) ∧
        ((∀ x ∈ g, ¬ x.year < r.year) → prev = none → d = none) ∧
        (∀ p : Row, (∀ x ∈ g, ¬ x.year < r.year) → prev = some p →
          d = deltaOf r.pop_near p.pop_near) ∧
        (∀ q : Row, q ∈ g → q.year < r.year →
          (∀ x ∈ g, x.year < r.year → x.year ≤ q.year) →
          d = deltaOf r.pop_near q.pop_near)
  | [], _, r, hr, _ => absurd hr (List.not_mem_nil r)
  | r₀ :: g, prev, r, hr, hs => by
    rw [List.pairwise_cons] at hs
    obtain ⟨hhead, htail⟩ := hs
    rcases List.mem_cons.mp hr with rfl | hrg
    · refine ⟨(match prev with
        | none => none
        | some p => deltaOf r.pop_near p.pop_near), ?_, ?_, ?_, ?_⟩
      · rw [walk_cons, List.find?_cons_of_pos _ (by simp)]
      · intro _ hprev
        rw [hprev]
      · intro p _ hprev
        rw [hprev]
      · intro q hq hqlt _
        exfalso
        rcases List.mem_cons.mp hq with rfl | hq
        · exact lt_irrefl _ hqlt
        · exact lt_asymm hqlt (hhead q hq)
    · obtain ⟨d, hfind, ih1, ih2, ih3⟩ := walk_find_hit i b g (some r₀) r hrg htail
      have hne : ¬ ((i, r₀.year, b) : String × Int × Int) = (i, r.year, b) := by
        intro hc
        exact absurd (congrArg (fun t : String × Int × Int => t.2.1) hc)
          (ne_of_lt (hhead r hrg))
      refine ⟨d, ?_, ?_, ?_, ?_⟩
      · rw [walk_cons, List.find?_cons_of_neg _ (by simpa using hne), hfind]
      · intro hall _
        exact absurd (hhead r hrg) (hall r₀ (List.mem_cons_self _ _))
      · intro p hall _
        exact absurd (hhead r hrg) (hall r₀ (List.mem_cons_self _ _))
      · intro q hq hqlt hqmax
        rcases List.mem_cons.mp hq with rfl | hqg
        · apply ih2 q ?_ rfl
          intro x hx hxlt
          have hle := hqmax x (List.mem_cons_of_mem _ hx) hxlt
          exact absurd (hhead x hx) (not_lt.mpr hle)
        · apply ih3 q hqg hqlt
          intro x hx hxlt
          exact hqmax x (List.mem_cons_of_mem _ hx) hxlt

theorem find_walk_flatMap (rows : List Row) (i : String) (b : Int) (y : Int) :
    ∀ ps : List (String × Int), (i, b) ∈ ps → ps.Nodup →
      (ps.flatMap (fun p => walk p.1 p.2 none (sortedGroup rows p.1 p.2))).find?
          (fun e => decide (e.1 = (i, y, b))) =
        (walk i b none (sortedGroup rows i b)).find? (fun e => decide (e.1 = (i, y, b)))
  | [], hmem, _ => absurd hmem (List.not_mem_nil _)
  | q :: ps, hmem, hnd => by
    obtain ⟨qi, qb⟩ := q
    rw [List.flatMap_cons, List.find?_append]
    by_cases hq : (qi, qb) = (i, b)
    · have hqi : qi = i := congrArg Prod.fst hq
      have hqb : qb = b := congrArg Prod.snd hq
      subst hqi
      subst hqb
      have hps : (qi, qb) ∉ ps := (List.nodup_cons.mp hnd).1
      have htail : (ps.flatMap (fun p => walk p.1 p.2 none (sortedGroup rows p.1 p.2))).find?
          (fun e => decide (e.1 = (qi, y, qb))) = none := by
        rw [List.find?_eq_none]
        intro e he
        rw [List.mem_flatMap] at he
        obtain ⟨p, hpmem, hew⟩ := he
        have hkey : e.1 ∈ (walk p.1 p.2 none (sortedGroup rows p.1 p.2)).map Prod.fst :=
          List.mem_map.mpr ⟨e, hew, rfl⟩
        rw [walk_keys_eq, List.mem_map] at hkey
        obtain ⟨x, _, hx⟩ := hkey
        simp only [decide_eq_true_eq]
        intro hc
        rw [← hx] at hc
        apply hps
        have h1 : p.1 = qi := congrArg Prod.fst hc
        have h2 : p.2 = qb := congrArg (fun t : String × Int × Int => t.2.2) hc
        have hpq : p = (qi, qb) := Prod.ext_iff.mpr ⟨h1, h2⟩
        rw [← hpq]
        exact hpmem
      cases hf : (walk qi qb none (sortedGroup rows qi qb)).find?
          (fun e => decide (e.1 = (qi, y, qb))) with
      | none =>
        rw [Option.none_or]
        exact htail
      | some e => rfl
    · have hwq : (walk qi qb none (sortedGroup rows qi qb)).find?
          (fun e => decide (e.1 = (i, y, b))) = none := by
        rw [List.find?_eq_none]
        intro e he
        have hkey : e.1 ∈ (walk qi qb none (sortedGroup rows qi qb)).map Prod.fst :=
          List.mem_map.mpr ⟨e, he, rfl⟩
        rw [walk_keys_eq, List.mem_map] at hkey
        obtain ⟨x, _, hx⟩ := hkey
        simp only [decide_eq_true_eq]
        intro hc
        rw [← hx] at hc
        have h1 : qi = i := congrArg Prod.fst hc
        have h2 : qb = b := congrArg (fun t : String × Int × Int => t.2.2) hc
        exact hq (Prod.ext_iff.mpr ⟨h1, h2⟩)
      rw [hwq, Option.none_or]
      refine find_walk_flatMap rows i b y ps ?_ ((List.nodup_cons.mp hnd).2)
      rcases List.mem_cons.mp hmem with h | h
      · exact absurd h.symm hq
      · exact h

theorem deltaKeys_nodup (rows : List Row) (hPK : (rows.map rowKey).Nodup) :
    ((deltaEntries rows).map Prod.fst).Nodup := by
  rw [deltaEntries, List.map_flatMap, List.nodup_flatMap]
  constructor
  · intro p _
    rw [walk_keys_eq]
    have hy := sortedGroup_year_nodup rows p.1 p.2 hPK
    have hmm : (sortedGroup rows p.1 p.2).map (fun r => (p.1, r.year, p.2)) =
        ((sortedGroup rows p.1 p.2).map Row.year).map (fun yy => (p.1, yy, p.2)) := by
      rw [List.map_map]
      rfl
    rw [hmm]
    exact hy.map (fun y1 y2 h => congrArg (fun t : String × Int × Int => t.2.1) h)
  · have hgp : List.Pairwise (fun a c => a ≠ c) (groupPairs rows) := groupPairs_nodup rows
    refine List.Pairwise.imp ?_ hgp
    intro p1 p2 hne k hk1 hk2
    simp only [] at hk1 hk2
    rw [walk_keys_eq, List.mem_map] at hk1 hk2
    obtain ⟨x1, _, hx1⟩ := hk1
    obtain ⟨x2, _, hx2⟩ := hk2
    apply hne
    have hc : ((p1.1, x1.year, p1.2) : String × Int × Int) = (p2.1, x2.year, p2.2) :=
      hx1.trans hx2.symm
    injection hc with h1 hrest
    injection hrest with hmid h2
    exact Prod.ext_iff.mpr ⟨h1, h2⟩

theorem deltaMap_lookup (rows : List Row) (hPK : (rows.map rowKey).Nodup)
    (k : String × Int × Int) :
    jsLookup (deltaExposureByKey rows) k =
      ((deltaEntries rows).find? (fun e => decide (e.1 = k))).map Prod.snd := by
  rw [deltaExposureByKey, jsMapOfList_of_nodup (deltaKeys_nodup rows hPK)]
  rfl

theorem deltaEntries_find_none (rows : List Row) (i : String) (b : Int) (y : Int)
    (hno : ¬ ∃ r ∈ rows, r.iso3 = i ∧ r.buffer_km = b ∧ r.year = y) :
    (deltaEntries rows).find? (fun e => decide (e.1 = (i, y, b))) = none := by
  rw [List.find?_eq_none]
  intro e he
  rw [deltaEntries, List.mem_flatMap] at he
  obtain ⟨p, _, hew⟩ := he
  have hkey : e.1 ∈ (walk p.1 p.2 none (sortedGroup rows p.1 p.2)).map Prod.fst :=
    List.mem_map.mpr ⟨e, hew, rfl⟩
  rw [walk_keys_eq, List.mem_map] at hkey
  obtain ⟨x, hxg, hx⟩ := hkey
  simp only [decide_eq_true_eq]
  intro hc
  rw [← hx] at hc
  obtain ⟨hxr, hxi, hxb⟩ := mem_sortedGroup.mp hxg
  refine hno ⟨x, hxr, ?_, ?_, ?_⟩
  · rw [hxi]
    exact congrArg Prod.fst hc
  · rw [hxb]
    exact congrArg (fun t : String × Int × Int => t.2.2) hc
  · exact congrArg (fun t : String × Int × Int => t.2.1) hc

/-- C1 counterexample: the claim as stated fails on a store whose (AAA, 30)
series has records at 1990 and 2010 but none at 2000 — the previous year's
(2000) record is absent for 2010, yet the code stores the computed delta
9 − 5 = 4 against the 1990 record instead of "no value". -/
theorem delta_prev_decade_counterexample : ¬ C1Claim rowsGap := by decide

/-- C1 (amended): the delta walk compares each record against the nearest
earlier-year record of its (entity, buffer) group, not necessarily the
previous decade. Precisely, under the primary-key precondition and with all
row years drawn from the fixed sequence: the earliest fixed year always
carries "no value"; a key with no record has no delta entry; a record with no
earlier-year record in its group stores JS `null`; a record whose latest
earlier-year record is `q` stores `deltaOf` against `q` — in particular
`max(0, pop_now − pop_q)` when both populations are numbers; and every stored
delta value is non-negative. -/
theorem delta_walk_correct (rows : List Row) (hPK : (rows.map rowKey).Nodup)
    (hYears : ∀ r ∈ rows, r.year ∈ years) (i : String) (b : Int) (y : Int) :
    noValue (jsLookup (deltaExposureByKey rows) (i, 1990, b)) ∧
    ((¬ ∃ r ∈ rows, r.iso3 = i ∧ r.buffer_km = b ∧ r.year = y) →
      jsLookup (deltaExposureByKey rows) (i, y, b) = none) ∧
    (∀ r ∈ rows, r.iso3 = i → r.buffer_km = b → r.year = y →
      (¬ ∃ q ∈ rows, q.iso3 = i ∧ q.buffer_km = b ∧ q.year < y) →
      jsLookup (deltaExposureByKey rows) (i, y, b) = some none) ∧
    (∀ r ∈ rows, ∀ q ∈ rows,
      r.iso3 = i → r.buffer_km = b → r.year = y →
      q.iso3 = i → q.buffer_km = b → q.year < y →
      (∀ w ∈ rows, w.iso3 = i → w.buffer_km = b → w.year < y → w.year ≤ q.year) →
      jsLookup (deltaExposureByKey rows) (i, y, b) =
        some (deltaOf r.pop_near q.pop_near) ∧
      (∀ a c : Int, r.pop_near = .num a → q.pop_near = .num c →
        jsLookup (deltaExposureByKey rows) (i, y, b) = some (some (max 0 (a - c))))) ∧
    (∀ v : Int, jsLookup (deltaExposureByKey rows) (i, y, b) = some (some v) → 0 ≤ v) := by
  have hAgen : ∀ y' : Int, (¬ ∃ r ∈ rows, r.iso3 = i ∧ r.buffer_km = b ∧ r.year = y') →
      jsLookup (deltaExposureByKey rows) (i, y', b) = none := by
    intro y' hno
    rw [deltaMap_lookup rows hPK, deltaEntries_find_none rows i b y' hno]
    rfl
  have hBgen : ∀ y' : Int, ∀ r ∈ rows, r.iso3 = i → r.buffer_km = b → r.year = y' →
      (¬ ∃ q ∈ rows, q.iso3 = i ∧ q.buffer_km = b ∧ q.year < y') →
      jsLookup (deltaExposureByKey rows) (i, y', b) = some none := by
    intro y' r hr hi hb2 hy hnoq
    subst hi
    subst hb2
    subst hy
    have hp : (r.iso3, r.buffer_km) ∈ groupPairs rows :=
      mem_groupPairs.mpr ⟨r, hr, rfl, rfl⟩
    have hrg : r ∈ sortedGroup rows r.iso3 r.buffer_km :=
      mem_sortedGroup.mpr ⟨hr, rfl, rfl⟩
    obtain ⟨d, hfind, ih1, _, _⟩ :=
      walk_find_hit r.iso3 r.buffer_km (sortedGroup rows r.iso3 r.buffer_km) none r hrg
        (sortedGroup_strict rows r.iso3 r.buffer_km hPK)
    have hall : ∀ x ∈ sortedGroup rows r.iso3 r.buffer_km, ¬ x.year < r.year := by
      intro x hx hxl
      obtain ⟨hxr, hxi, hxb⟩ := mem_sortedGroup.mp hx
      exact hnoq ⟨x, hxr, hxi, hxb, hxl⟩
    rw [deltaMap_lookup rows hPK, deltaEntries,
      find_walk_flatMap rows r.iso3 r.buffer_km r.year (groupPairs rows) hp
        (groupPairs_nodup rows),
      hfind, ih1 hall rfl]
    rfl
  have hCgen : ∀ y' : Int, ∀ r ∈ rows, ∀ q ∈ rows,
      r.iso3 = i → r.buffer_km = b → r.year = y' →
      q.iso3 = i → q.buffer_km = b → q.year < y' →
      (∀ w ∈ rows, w.iso3 = i → w.buffer_km = b → w.year < y' → w.year ≤ q.year) →
      jsLookup (deltaExposureByKey rows) (i, y', b) =
        some (deltaOf r.pop_near q.pop_near) := by
    intro y' r hr q hq hi hb2 hy hqi hqb hql hqmax
    subst hi
    subst hb2
    subst hy
    have hp : (r.iso3, r.buffer_km) ∈ groupPairs rows :=
      mem_groupPairs.mpr ⟨r, hr, rfl, rfl⟩
    have hrg : r ∈ sortedGroup rows r.iso3 r.buffer_km :=
      mem_sortedGroup.mpr ⟨hr, rfl, rfl⟩
    have hqg : q ∈ sortedGroup rows r.iso3 r.buffer_km :=
      mem_sortedGroup.mpr ⟨hq, hqi, hqb⟩
    obtain ⟨d, hfind, _, _, ih3⟩ :=
      walk_find_hit r.iso3 r.buffer_km (sortedGroup rows r.iso3 r.buffer_km) none r hrg
        (sortedGroup_strict rows r.iso3 r.buffer_km hPK)
    have hd : d = deltaOf r.pop_near q.pop_near := by
      apply ih3 q hqg hql
      intro x hx hxl
      obtain ⟨hxr, hxi, hxb⟩ := mem_sortedGroup.mp hx
      exact hqmax x hxr hxi hxb hxl
    rw [deltaMap_lookup rows hPK, deltaEntries,
      find_walk_flatMap rows r.iso3 r.buffer_km r.year (groupPairs rows) hp
        (groupPairs_nodup rows),
      hfind, hd]
    rfl
  refine ⟨?_, hAgen y, hBgen y, ?_, ?_⟩
  · by_cases hex : ∃ r ∈ rows, r.iso3 = i ∧ r.buffer_km = b ∧ r.year = 1990
    · obtain ⟨r, hr, hi, hb2, hy⟩ := hex
      refine Or.inr (hBgen 1990 r hr hi hb2 hy ?_)
      rintro ⟨q, hq, _, _, hql⟩
      have hqy := hYears q hq
      have : q.year = 1990 ∨ q.year = 2000 ∨ q.year = 2010 := by simpa [years] using hqy
      omega
    · exact Or.inl (hAgen 1990 hex)
  · intro r hr q hq hi hb2 hy hqi hqb hql hqmax
    have hmain := hCgen y r hr q hq hi hb2 hy hqi hqb hql hqmax
    refine ⟨hmain, ?_⟩
    intro a c hra hqc
    rw [hmain, hra, hqc, deltaOf_num]
  · intro v hv
    rw [deltaMap_lookup rows hPK] at hv
    cases hf : (deltaEntries rows).find? (fun e => decide (e.1 = (i, y, b))) with
    | none =>
      rw [hf] at hv
      cases hv
    | some e =>
      rw [hf] at hv
      injection hv with hv
      have hmem := List.mem_of_find?_eq_some hf
      rw [deltaEntries, List.mem_flatMap] at hmem
      obtain ⟨p, _, hew⟩ := hmem
      rcases walk_values p.1 p.2 _ none e hew with h0 | ⟨cur, pv, hdv⟩
      · rw [h0] at hv
        cases hv
      · rw [hdv] at hv
        exact deltaOf_nonneg cur pv v hv

/-- Witness for the amended C1: in a complete two-decade store, the delta at
(AAA, 2000, 30) is the clipped difference max(0, 9 − 5) against the 1990
record. -/
theorem delta_walk_correct_witness :
    jsLookup (deltaExposureByKey rowsTwo) ("AAA", 2000, 30) = some (some (max 0 (9 - 5))) :=
  ((delta_walk_correct rowsTwo (by decide) (by decide) "AAA" 30 2000).2.2.2.1
      (mkRow "AAA" 2000 30 (some 4) (.num 9) (some 1)) (by decide)
      (mkRow "AAA" 1990 30 (some 2) (.num 5) (some 1)) (by decide)
      rfl rfl rfl rfl rfl (by decide) (by decide)).2 9 5 rfl rfl

end NukeExposure
